import Mathlib

/-!
Verification of the file/artifact utility layer of the job-hunt agent
repository (src/agents/tools/fs.py).

The Python module is shallowly embedded: each tool function becomes a pure
Lean function; the filesystem becomes an explicit state value threaded
through the stateful operations; every tool returns a tagged result
(success payload or error message), mirroring the status dictionaries of
the source.  Path resolution (Path(path).expanduser().resolve()) depends on
the process environment, so the embedding keys the filesystem by resolved
path strings and treats resolution as the identity on those keys.
-/

set_option maxRecDepth 8192

/-- Tagged result returned by every tool: embeds the status dictionaries of
src/agents/tools/fs.py, either status success with an operation-specific
payload or status error with an error_message string. -/
inductive Res (α : Type) where
  | success : α → Res α
  | error : String → Res α
deriving DecidableEq

/-- Payload of fs_read_text on success: resolved path and decoded text. -/
structure ReadOk where
  path : String
  content : List Char
deriving DecidableEq

/-- Payload of fs_write_text on success: resolved path and byte count. -/
structure WriteOk where
  path : String
  bytes : Nat
deriving DecidableEq

/-- Payload of fs_mkdir on success: resolved path and creation flag. -/
structure MkdirOk where
  path : String
  created : Bool
deriving DecidableEq

/-- Payload of fs_sha256 on success: resolved path and hex digest. -/
structure ShaOk where
  path : String
  sha256 : String
deriving DecidableEq

/-- Payload of text_unified_diff on success. -/
structure DiffOk where
  diff : String
  approx_changed_lines : Nat
deriving DecidableEq

/-- Payload of csv_append_row on success. -/
structure CsvOk where
  csv_path : String
  created : Bool
  appended : Bool
deriving DecidableEq

/-- Payload of util_make_job_folder_name on success. -/
structure FolderOk where
  folder_name : String
deriving DecidableEq

/-- Embeds Path(path).expanduser().resolve() of the source: the embedding
works on already-resolved canonical path strings, so resolution is the
identity on those keys. -/
def resolvePath (p : String) : String := p

/-- Whitespace characters recognised by the Python regular expression class
backslash-s and by str.strip with no arguments, listed explicitly. -/
def isPyWs (c : Char) : Bool :=
  [32, 9, 10, 13, 11, 12, 28, 29, 30, 31,
   133, 160, 5760, 8192, 8193, 8194, 8195, 8196, 8197, 8198, 8199,
   8200, 8201, 8202, 8232, 8233, 8239, 8287, 12288].contains c.toNat

/-- Lower-casing of a character as str.lower does on ASCII letters.  The
source feeds the result through a filter keeping only [a-z0-9_], so the
exotic non-ASCII case mappings of Python are immaterial downstream and the
embedding maps non-ASCII characters to themselves. -/
def pyLower (c : Char) : Char :=
  if 'A' ≤ c ∧ c ≤ 'Z' then Char.ofNat (c.toNat + 32) else c

/-- Drop the longest suffix whose characters satisfy p. -/
def dropWhileEnd (p : Char → Bool) (l : List Char) : List Char :=
  (l.reverse.dropWhile p).reverse

/-- Strip characters satisfying p from both ends, as str.strip does. -/
def stripEnds (p : Char → Bool) (l : List Char) : List Char :=
  dropWhileEnd p (l.dropWhile p)

/-- Worker for collapseRuns: the flag records whether the previous character
belonged to a run being collapsed. -/
def collapseRunsGo (p : Char → Bool) (rep : Char) : Bool → List Char → List Char
  | _, [] => []
  | inRun, c :: rest =>
    if p c then
      if inRun then collapseRunsGo p rep true rest
      else rep :: collapseRunsGo p rep true rest
    else c :: collapseRunsGo p rep false rest

/-- Replace every maximal run of characters satisfying p by the single
character rep: embeds re.sub of a one-character-class-plus pattern. -/
def collapseRuns (p : Char → Bool) (rep : Char) (l : List Char) : List Char :=
  collapseRunsGo p rep false l

/-- Character class [a-z0-9_] of the sanitizer. -/
def isSlugChar (c : Char) : Bool :=
  (decide ('a' ≤ c) && decide (c ≤ 'z')) ||
  (decide ('0' ≤ c) && decide (c ≤ '9')) || c == '_'

/-- Embeds _sanitize_slug of src/agents/tools/fs.py: lower-case and strip,
replace whitespace runs by single underscores, drop characters outside
[a-z0-9_], collapse underscore runs, strip underscores from both ends,
truncate to max_len characters. -/
def _sanitize_slug (s : List Char) (max_len : Nat := 80) : List Char :=
  let s1 := s.map pyLower
  let s2 := stripEnds isPyWs s1
  let s3 := collapseRuns isPyWs '_' s2
  let s4 := s3.filter isSlugChar
  let s5 := collapseRuns (fun c => c == '_') '_' s4
  let s6 := stripEnds (fun c => c == '_') s5
  if s6.length > max_len then s6.take max_len else s6

/-- Tool context state: embeds the string-keyed tool_context.state mapping
that util_make_job_folder_name writes to. -/
abbrev ToolState := List (String × String)

/-- Update a key in the tool context state, replacing any previous value. -/
def stateSet (st : ToolState) (k v : String) : ToolState :=
  (k, v) :: st.filter (fun kv => !(kv.1 == k))

/-- Embeds util_make_job_folder_name of src/agents/tools/fs.py: builds the
folder name from job_id and the sanitized title and records it in the tool
context state under the key job_folder_name. -/
def util_make_job_folder_name (job_id job_title : String)
    (st : ToolState) : Res FolderOk × ToolState :=
  let folder := job_id ++ "_" ++ String.mk (_sanitize_slug job_title.data)
  (Res.success ⟨folder⟩, stateSet st "job_folder_name" folder)

/-- The pattern of the spec sentence: a string of characters drawn from
[a-z0-9_] that is nonempty, as the anchored plus pattern requires. -/
def matchesSlugPlus (l : List Char) : Prop :=
  l ≠ [] ∧ ∀ c ∈ l, isSlugChar c = true

instance (l : List Char) : Decidable (matchesSlugPlus l) := by
  unfold matchesSlugPlus; infer_instance

/-- Characters produced by collapseRunsGo come from the input or are the
replacement character. -/
theorem mem_collapseRunsGo {p : Char → Bool} {rep c : Char} :
    ∀ (b : Bool) (l : List Char), c ∈ collapseRunsGo p rep b l →
      c ∈ l ∨ c = rep := by
  intro b l
  induction l generalizing b with
  | nil => intro h; exact absurd h (by simp [collapseRunsGo])
  | cons x xs ih =>
    intro h
    simp only [collapseRunsGo] at h
    split at h
    · split at h
      · rcases ih _ h with h' | h'
        · exact Or.inl (List.mem_cons_of_mem _ h')
        · exact Or.inr h'
      · rcases List.mem_cons.mp h with h' | h'
        · exact Or.inr h'
        · rcases ih _ h' with h'' | h''
          · exact Or.inl (List.mem_cons_of_mem _ h'')
          · exact Or.inr h''
    · rcases List.mem_cons.mp h with h' | h'
      · exact Or.inl (h' ▸ List.mem_cons_self x xs)
      · rcases ih _ h' with h'' | h''
        · exact Or.inl (List.mem_cons_of_mem _ h'')
        · exact Or.inr h''

/-- Characters of the stripped list come from the input. -/
theorem mem_stripEnds {p : Char → Bool} {c : Char} {l : List Char}
    (h : c ∈ stripEnds p l) : c ∈ l := by
  unfold stripEnds dropWhileEnd at h
  have h1 : c ∈ (l.dropWhile p).reverse.dropWhile p :=
    List.mem_reverse.mp h
  have h2 : c ∈ (l.dropWhile p).reverse :=
    ((l.dropWhile p).reverse.dropWhile_sublist p).mem h1
  exact (l.dropWhile_sublist p).mem (List.mem_reverse.mp h2)

/-- Every character of the sanitized slug lies in [a-z0-9_]. -/
theorem sanitize_slug_chars {c : Char} {s : List Char}
    (h : c ∈ _sanitize_slug s) : isSlugChar c = true := by
  unfold _sanitize_slug at h
  simp only at h
  have h5 : c ∈ stripEnds (fun c => c == '_')
      (collapseRuns (fun c => c == '_') '_'
        ((collapseRuns isPyWs '_' (stripEnds isPyWs (s.map pyLower))).filter
          isSlugChar)) := by
    by_cases hl : (stripEnds (fun c => c == '_')
        (collapseRuns (fun c => c == '_') '_'
          ((collapseRuns isPyWs '_' (stripEnds isPyWs (s.map pyLower))).filter
            isSlugChar))).length > 80
    · rw [if_pos hl] at h
      exact (List.take_sublist _ _).mem h
    · rwa [if_neg hl] at h
  have h4 := mem_stripEnds h5
  rcases mem_collapseRunsGo false _ h4 with h3 | h3
  · exact (List.mem_filter.mp h3).2
  · subst h3; rfl

/-- The sanitized slug has at most max_len characters. -/
theorem sanitize_slug_length (s : List Char) :
    (_sanitize_slug s).length ≤ 80 := by
  unfold _sanitize_slug
  simp only
  split
  · simp
  · omega

/-- C1: counterexample — with job_title the empty string (or any title with
no alphanumeric character) the sanitized part is empty, so it does not
match the anchored pattern of one-or-more characters from [a-z0-9_]; the
returned folder_name is the job id followed by a bare underscore. -/
theorem util_make_job_folder_name_empty_title_counterexample :
    (util_make_job_folder_name "j1" "" []).1 = Res.success ⟨"j1_"⟩ ∧
    _sanitize_slug "".data = [] ∧
    ¬ matchesSlugPlus (_sanitize_slug "".data) := by
  refine ⟨by decide, rfl, ?_⟩
  intro h
  exact h.1 rfl

/-- C1 (amended): for every job_id and job_title, util_make_job_folder_name
returns status success with folder_name equal to job_id, an underscore and
the sanitized title s computed by lower-casing, whitespace-run collapsing,
removal of characters outside [a-z0-9_], underscore-run collapsing,
underscore trimming and truncation to 80 characters; every character of s
lies in [a-z0-9_] and s has at most 80 characters, so s matches the starred
pattern over [a-z0-9_] and is empty exactly when no character survives. -/
theorem util_make_job_folder_name_sanitized (job_id job_title : String)
    (st : ToolState) :
    (util_make_job_folder_name job_id job_title st).1 =
      Res.success ⟨job_id ++ "_" ++ String.mk (_sanitize_slug job_title.data)⟩ ∧
    (∀ c ∈ _sanitize_slug job_title.data, isSlugChar c = true) ∧
    (_sanitize_slug job_title.data).length ≤ 80 :=
  ⟨rfl, fun _ hc => sanitize_slug_chars hc, sanitize_slug_length _⟩

/-- C6: counterexample — the call is not side-effect free: it mutates the
tool context state, recording the folder name under key job_folder_name;
on an empty starting state the state after the call is nonempty. -/
theorem util_make_job_folder_name_state_mutation_counterexample :
    (util_make_job_folder_name "j1" "role" []).2 =
      [("job_folder_name", "j1_role")] ∧
    (util_make_job_folder_name "j1" "role" []).2 ≠ ([] : ToolState) := by
  refine ⟨by decide, ?_⟩
  intro h
  simp [util_make_job_folder_name, stateSet] at h

/-- C6 (amended): the folder_name result of util_make_job_folder_name is a
deterministic function of job_id and job_title alone — identical arguments
yield identical folder names whatever the tool context state is — and the
only side effect of the call is storing that folder name in the state under
the key job_folder_name. -/
theorem util_make_job_folder_name_deterministic (job_id job_title : String)
    (st st' : ToolState) :
    (util_make_job_folder_name job_id job_title st).1 =
      (util_make_job_folder_name job_id job_title st').1 ∧
    (util_make_job_folder_name job_id job_title st).2 =
      stateSet st "job_folder_name"
        (job_id ++ "_" ++ String.mk (_sanitize_slug job_title.data)) :=
  ⟨rfl, rfl⟩

/-- UTF-8 encoding of one Unicode scalar value, given as a code point. -/
def encodeChar (n : Nat) : List Nat :=
  if n < 128 then [n]
  else if n < 2048 then [192 + n / 64, 128 + n % 64]
  else if n < 65536 then [224 + n / 4096, 128 + n / 64 % 64, 128 + n % 64]
  else [240 + n / 262144, 128 + n / 4096 % 64, 128 + n / 64 % 64, 128 + n % 64]

/-- UTF-8 encoding of a text, as the str.encode call of the source
produces; file contents are byte lists. -/
def encodeUtf8 (s : List Char) : List Nat :=
  (s.map (fun c => encodeChar c.toNat)).flatten


/-- Strict UTF-8 decoder, embedding bytes.decode of the source with strict
error handling: rejects bad start bytes, bad continuation bytes, overlong
encodings, surrogate code points and values beyond the Unicode range,
exactly as the CPython utf-8 codec does; every malformed input yields none
and no exception escapes. -/
def decodeUtf8 : List Nat → Option (List Char)
  | [] => some []
  | b1 :: rest =>
    if b1 < 128 then
      (decodeUtf8 rest).map (fun cs => Char.ofNat b1 :: cs)
    else
      match rest with
      | [] => none
      | b2 :: rest2 =>
        if b1 < 194 then none
        else if b1 < 224 then
          if 128 ≤ b2 ∧ b2 < 192 then
            (decodeUtf8 rest2).map
              (fun cs => Char.ofNat ((b1 - 192) * 64 + (b2 - 128)) :: cs)
          else none
        else
          match rest2 with
          | [] => none
          | b3 :: rest3 =>
            if b1 < 240 then
              if (b1 = 224 → 160 ≤ b2) ∧ (b1 = 237 → b2 < 160) ∧
                 (128 ≤ b2 ∧ b2 < 192) ∧ (128 ≤ b3 ∧ b3 < 192) then
                (decodeUtf8 rest3).map
                  (fun cs =>
                    Char.ofNat ((b1 - 224) * 4096 + (b2 - 128) * 64 +
                      (b3 - 128)) :: cs)
              else none
            else
              match rest3 with
              | [] => none
              | b4 :: rest4 =>
                if b1 < 245 then
                  if (b1 = 240 → 144 ≤ b2) ∧ (b1 = 244 → b2 < 144) ∧
                     (128 ≤ b2 ∧ b2 < 192) ∧ (128 ≤ b3 ∧ b3 < 192) ∧
                     (128 ≤ b4 ∧ b4 < 192) then
                    (decodeUtf8 rest4).map
                      (fun cs =>
                        Char.ofNat ((b1 - 240) * 262144 + (b2 - 128) * 4096 +
                          (b3 - 128) * 64 + (b4 - 128)) :: cs)
                  else none
                else none

/-- Code points of characters are valid Unicode scalar values: below the
surrogate block or between its end and the Unicode maximum. -/
theorem char_toNat_valid (c : Char) :
    c.toNat < 55296 ∨ (57344 ≤ c.toNat ∧ c.toNat < 1114112) := c.valid

/-- Unfolding of the decoder on a one-byte sequence. -/
theorem decodeUtf8_one (b1 : Nat) (rest : List Nat) (h : b1 < 128) :
    decodeUtf8 (b1 :: rest) =
      (decodeUtf8 rest).map (fun cs => Char.ofNat b1 :: cs) := by
  rw [decodeUtf8.eq_def]
  dsimp only
  rw [if_pos h]

/-- Unfolding of the decoder on a two-byte sequence. -/
theorem decodeUtf8_two (b1 b2 : Nat) (rest : List Nat)
    (h1 : 194 ≤ b1) (h2 : b1 < 224) (h3 : 128 ≤ b2) (h4 : b2 < 192) :
    decodeUtf8 (b1 :: b2 :: rest) =
      (decodeUtf8 rest).map
        (fun cs => Char.ofNat ((b1 - 192) * 64 + (b2 - 128)) :: cs) := by
  rw [decodeUtf8.eq_def]
  dsimp only
  rw [if_neg (by omega), if_neg (by omega), if_pos h2, if_pos ⟨h3, h4⟩]

/-- Unfolding of the decoder on a three-byte sequence. -/
theorem decodeUtf8_three (b1 b2 b3 : Nat) (rest : List Nat)
    (h1 : 224 ≤ b1) (h2 : b1 < 240)
    (g1 : b1 = 224 → 160 ≤ b2) (g2 : b1 = 237 → b2 < 160)
    (h3 : 128 ≤ b2) (h4 : b2 < 192) (h5 : 128 ≤ b3) (h6 : b3 < 192) :
    decodeUtf8 (b1 :: b2 :: b3 :: rest) =
      (decodeUtf8 rest).map
        (fun cs =>
          Char.ofNat ((b1 - 224) * 4096 + (b2 - 128) * 64 + (b3 - 128)) :: cs) := by
  rw [decodeUtf8.eq_def]
  dsimp only
  rw [if_neg (by omega), if_neg (by omega), if_neg (by omega), if_pos h2,
    if_pos ⟨g1, g2, ⟨h3, h4⟩, h5, h6⟩]

/-- Unfolding of the decoder on a four-byte sequence. -/
theorem decodeUtf8_four (b1 b2 b3 b4 : Nat) (rest : List Nat)
    (h1 : 240 ≤ b1) (h2 : b1 < 245)
    (g1 : b1 = 240 → 144 ≤ b2) (g2 : b1 = 244 → b2 < 144)
    (h3 : 128 ≤ b2) (h4 : b2 < 192) (h5 : 128 ≤ b3) (h6 : b3 < 192)
    (h7 : 128 ≤ b4) (h8 : b4 < 192) :
    decodeUtf8 (b1 :: b2 :: b3 :: b4 :: rest) =
      (decodeUtf8 rest).map
        (fun cs =>
          Char.ofNat ((b1 - 240) * 262144 + (b2 - 128) * 4096 +
            (b3 - 128) * 64 + (b4 - 128)) :: cs) := by
  rw [decodeUtf8.eq_def]
  dsimp only
  rw [if_neg (by omega), if_neg (by omega), if_neg (by omega),
    if_neg (by omega), if_pos h2, if_pos ⟨g1, g2, ⟨h3, h4⟩, ⟨h5, h6⟩, h7, h8⟩]

/-- Decoding an encoded character at the head of a byte stream yields the
character back and continues with the remaining stream. -/
theorem decodeUtf8_encodeChar (c : Char) (rest : List Nat) (cs : List Char)
    (ih : decodeUtf8 rest = some cs) :
    decodeUtf8 (encodeChar c.toNat ++ rest) = some (c :: cs) := by
  have hv := char_toNat_valid c
  set n := c.toNat with hn
  rcases Nat.lt_or_ge n 128 with h1 | h1
  · rw [encodeChar, if_pos h1]
    simp only [List.singleton_append]
    rw [decodeUtf8_one n rest h1, ih, Option.map_some']
    have harith : Char.ofNat n = c := by rw [hn, Char.ofNat_toNat]
    rw [harith]
  · rcases Nat.lt_or_ge n 2048 with h2 | h2
    · rw [encodeChar, if_neg (by omega), if_pos h2]
      simp only [List.cons_append, List.nil_append]
      rw [decodeUtf8_two _ _ rest (by omega) (by omega) (by omega) (by omega),
        ih, Option.map_some']
      have harith : (192 + n / 64 - 192) * 64 + (128 + n % 64 - 128) = n := by
        omega
      rw [harith, hn, Char.ofNat_toNat]
    · rcases Nat.lt_or_ge n 65536 with h3 | h3
      · rw [encodeChar, if_neg (by omega), if_neg (by omega), if_pos h3]
        simp only [List.cons_append, List.nil_append]
        rw [decodeUtf8_three _ _ _ rest (by omega) (by omega)
          (fun h => by omega) (fun h => by omega)
          (by omega) (by omega) (by omega) (by omega), ih, Option.map_some']
        have harith : (224 + n / 4096 - 224) * 4096 +
            (128 + n / 64 % 64 - 128) * 64 + (128 + n % 64 - 128) = n := by
          omega
        rw [harith, hn, Char.ofNat_toNat]
      · rw [encodeChar, if_neg (by omega), if_neg (by omega),
          if_neg (by omega)]
        simp only [List.cons_append, List.nil_append]
        rw [decodeUtf8_four _ _ _ _ rest (by omega) (by omega)
          (fun h => by omega) (fun h => by omega)
          (by omega) (by omega) (by omega) (by omega) (by omega) (by omega),
          ih, Option.map_some']
        have harith : (240 + n / 262144 - 240) * 262144 +
            (128 + n / 4096 % 64 - 128) * 4096 +
            (128 + n / 64 % 64 - 128) * 64 + (128 + n % 64 - 128) = n := by
          omega
        rw [harith, hn, Char.ofNat_toNat]

/-- Round trip: decoding the UTF-8 encoding of any text returns the text,
so a value written by fs_write_text is read back by fs_read_text intact. -/
theorem decodeUtf8_encodeUtf8 (s : List Char) :
    decodeUtf8 (encodeUtf8 s) = some s := by
  induction s with
  | nil => rfl
  | cons c cs ih =>
    have hsplit : encodeUtf8 (c :: cs) =
        encodeChar c.toNat ++ encodeUtf8 cs := by
      simp [encodeUtf8]
    rw [hsplit]
    exact decodeUtf8_encodeChar c _ _ ih

/-- Filesystem state: an association of resolved paths to regular-file byte
contents, and the set of existing directories. -/
structure FS where
  files : List (String × List Nat)
  dirs : List String
deriving DecidableEq

/-- Bytes of the regular file at a path, when one exists. -/
def FS.lookupFile (fs : FS) (p : String) : Option (List Nat) :=
  fs.files.lookup p

/-- Embeds Path.is_file: the path names a regular file. -/
def FS.isFile (fs : FS) (p : String) : Bool :=
  (fs.lookupFile p).isSome

/-- Embeds Path.is_dir: the path names a directory. -/
def FS.isDir (fs : FS) (p : String) : Bool :=
  decide (p ∈ fs.dirs)

/-- Embeds Path.exists: the path names a file or a directory. -/
def FS.pathExists (fs : FS) (p : String) : Bool :=
  fs.isFile p || fs.isDir p

/-- Create or replace the regular file at a path. -/
def FS.setFile (fs : FS) (p : String) (bs : List Nat) : FS :=
  { fs with files := (p, bs) :: fs.files }

/-- Record a directory, keeping the state unchanged when it exists. -/
def FS.addDir (fs : FS) (p : String) : FS :=
  if p ∈ fs.dirs then fs else { fs with dirs := p :: fs.dirs }

/-- Split a character list at every separator occurrence. -/
def splitCharGo (sep : Char) : List Char → List Char → List (List Char)
  | [], acc => [acc.reverse]
  | c :: rest, acc =>
    if c = sep then acc.reverse :: splitCharGo sep rest []
    else splitCharGo sep rest (c :: acc)

/-- Components of a path string, split at the slash separator. -/
def splitPath (p : String) : List String :=
  (splitCharGo '/' p.data []).map String.mk

/-- Join path components with slash separators. -/
def joinPath (parts : List String) : String :=
  String.mk (List.intercalate ['/'] (parts.map String.data))

/-- Embeds Path.parent: the path with its last component removed. -/
def parentPath (p : String) : String :=
  joinPath (splitPath p).dropLast

/-- Proper ancestors of a path, from the top of the hierarchy downwards. -/
def strictAncestors (p : String) : List String :=
  (List.range ((splitPath p).length - 1)).map
    (fun i => joinPath ((splitPath p).take (i + 1)))

/-- The creation chain of mkdir with parents: every proper ancestor, from
the top downwards, then the path itself. -/
def pathChain (p : String) : List String :=
  strictAncestors p ++ [p]

/-- Worker of mkdirAll: create each chain element in order, stopping with
an error at the first element that exists as a regular file; directories
created before the conflict persist, as they do under pathlib. -/
def mkdirAllGo (fs : FS) : List String → Option String × FS
  | [] => (none, fs)
  | q :: rest =>
    if fs.isFile q then (some ("File exists: " ++ q), fs)
    else mkdirAllGo (fs.addDir q) rest

/-- Embeds Path.mkdir with parents and exist_ok set: creates the whole
chain of the path, idempotently for directories, erroring on a regular
file anywhere in the chain. -/
def FS.mkdirAll (fs : FS) (p : String) : Option String × FS :=
  mkdirAllGo fs (pathChain p)

/-- A path whose whole creation chain is free of regular-file conflicts. -/
def noFileConflict (fs : FS) (p : String) : Prop :=
  ∀ q ∈ pathChain p, fs.isFile q = false

instance (fs : FS) (p : String) : Decidable (noFileConflict fs p) := by
  unfold noFileConflict; infer_instance

/-- Adding a directory never changes the regular files. -/
theorem addDir_files (fs : FS) (q : String) :
    (fs.addDir q).files = fs.files := by
  unfold FS.addDir
  split <;> rfl

/-- Adding a directory preserves existing directories. -/
theorem addDir_isDir_mono {fs : FS} {q r : String}
    (h : fs.isDir r = true) : (fs.addDir q).isDir r = true := by
  unfold FS.isDir at h ⊢
  rw [decide_eq_true_eq] at h
  unfold FS.addDir
  split
  · exact decide_eq_true h
  · exact decide_eq_true (List.mem_cons_of_mem _ h)

/-- The added directory exists afterwards. -/
theorem addDir_isDir_self (fs : FS) (q : String) :
    (fs.addDir q).isDir q = true := by
  unfold FS.addDir FS.isDir
  split
  · next h => exact decide_eq_true h
  · exact decide_eq_true (List.mem_cons_self q fs.dirs)

/-- Directories of the extended state come from the original state or from
the added path. -/
theorem addDir_isDir_of {fs : FS} {q r : String}
    (h : (fs.addDir q).isDir r = true) : fs.isDir r = true ∨ r = q := by
  unfold FS.addDir FS.isDir at h
  split at h
  · exact Or.inl h
  · unfold FS.isDir
    rw [decide_eq_true_eq, List.mem_cons] at h
    rcases h with h' | h'
    · exact Or.inr h'
    · exact Or.inl (decide_eq_true h')

/-- Successful chain creation never changes the regular files. -/
theorem mkdirAllGo_none_files :
    ∀ (qs : List String) (fs fs1 : FS),
      mkdirAllGo fs qs = (none, fs1) → fs1.files = fs.files := by
  intro qs
  induction qs with
  | nil =>
    intro fs fs1 h
    simp only [mkdirAllGo] at h
    cases h
    rfl
  | cons q rest ih =>
    intro fs fs1 h
    simp only [mkdirAllGo] at h
    split at h
    · cases h
    · have := ih (fs.addDir q) fs1 h
      rw [this, addDir_files]

/-- A chain free of file conflicts is created successfully, all its
elements are directories afterwards, and prior directories persist. -/
theorem mkdirAllGo_success :
    ∀ (qs : List String) (fs : FS),
      (∀ q ∈ qs, fs.isFile q = false) →
      ∃ fs1, mkdirAllGo fs qs = (none, fs1) ∧
        fs1.files = fs.files ∧
        (∀ q ∈ qs, fs1.isDir q = true) ∧
        (∀ r, fs.isDir r = true → fs1.isDir r = true) := by
  intro qs
  induction qs with
  | nil =>
    intro fs _
    exact ⟨fs, rfl, rfl, by simp, fun _ h => h⟩
  | cons q rest ih =>
    intro fs hfree
    have hq : fs.isFile q = false := hfree q (List.mem_cons_self q rest)
    have hrest : ∀ r ∈ rest, (fs.addDir q).isFile r = false := by
      intro r hr
      have : (fs.addDir q).isFile r = fs.isFile r := by
        unfold FS.isFile FS.lookupFile
        rw [addDir_files]
      rw [this]
      exact hfree r (List.mem_cons_of_mem _ hr)
    obtain ⟨fs1, hgo, hfiles, hdirs, hmono⟩ := ih (fs.addDir q) hrest
    refine ⟨fs1, ?_, ?_, ?_, ?_⟩
    · simp only [mkdirAllGo]
      rw [if_neg (by rw [hq]; exact Bool.false_ne_true)]
      exact hgo
    · rw [hfiles, addDir_files]
    · intro r hr
      rcases List.mem_cons.mp hr with h' | h'
      · exact h' ▸ hmono q (addDir_isDir_self fs q)
      · exact hdirs r h'
    · intro r hr
      exact hmono r (addDir_isDir_mono hr)

/-- Directories present after a successful chain creation were present
before or belong to the chain. -/
theorem mkdirAllGo_isDir_of :
    ∀ (qs : List String) (fs fs1 : FS),
      mkdirAllGo fs qs = (none, fs1) →
      ∀ r, fs1.isDir r = true → fs.isDir r = true ∨ r ∈ qs := by
  intro qs
  induction qs with
  | nil =>
    intro fs fs1 h r hr
    simp only [mkdirAllGo] at h
    cases h
    exact Or.inl hr
  | cons q rest ih =>
    intro fs fs1 h r hr
    simp only [mkdirAllGo] at h
    split at h
    · cases h
    · rcases ih (fs.addDir q) fs1 h r hr with h' | h'
      · rcases addDir_isDir_of h' with h'' | h''
        · exact Or.inl h''
        · exact Or.inr (h'' ▸ List.mem_cons_self q rest)
      · exact Or.inr (List.mem_cons_of_mem _ h')

/-- Looking up the path just written returns the written bytes. -/
theorem setFile_lookup_self (fs : FS) (p : String) (bs : List Nat) :
    (fs.setFile p bs).lookupFile p = some bs := by
  unfold FS.setFile FS.lookupFile
  simp [List.lookup]

/-- Looking up another path is unaffected by a write. -/
theorem setFile_lookup_other {p q : String} (fs : FS) (bs : List Nat)
    (h : q ≠ p) : (fs.setFile p bs).lookupFile q = fs.lookupFile q := by
  unfold FS.setFile FS.lookupFile
  simp only [List.lookup]
  have hb : (q == p) = false := beq_eq_false_iff_ne.mpr h
  rw [hb]

/-- A regular file existing after a write is the written path or was a
regular file before. -/
theorem setFile_isFile_of {fs : FS} {p q : String} {bs : List Nat}
    (h : (fs.setFile p bs).isFile q = true) :
    q = p ∨ fs.isFile q = true := by
  by_cases hq : q = p
  · exact Or.inl hq
  · unfold FS.isFile at h
    rw [setFile_lookup_other fs bs hq] at h
    exact Or.inr h

/-- Directories are unaffected by a file write. -/
theorem setFile_isDir (fs : FS) (p q : String) (bs : List Nat) :
    (fs.setFile p bs).isDir q = fs.isDir q := rfl

/-- Embeds fs_read_text of src/agents/tools/fs.py: not-a-regular-file gives
the not-found error, a byte length beyond max_bytes gives the too-large
error, undecodable bytes give a decode error, and otherwise the decoded
content is returned with the resolved path. -/
def fs_read_text (fs : FS) (path : String) (max_bytes : Nat := 2000000) :
    Res ReadOk :=
  let p := resolvePath path
  match fs.lookupFile p with
  | none => Res.error ("File not found: " ++ p)
  | some data =>
    if data.length > max_bytes then
      Res.error ("File too large: " ++ toString data.length ++ " > " ++
        toString max_bytes)
    else
      match decodeUtf8 data with
      | some cs => Res.success ⟨p, cs⟩
      | none => Res.error ("utf-8 codec cannot decode file: " ++ p)

/-- Embeds fs_write_text of src/agents/tools/fs.py: an existing target with
overwrite off gives the already-exists error; otherwise parent directories
are created recursively and the UTF-8 encoding of the content is written,
the error of a conflicting chain entry or of a directory target being
reported as a tagged result. -/
def fs_write_text (fs : FS) (path : String) (content : List Char)
    (overwrite : Bool := false) : Res WriteOk × FS :=
  let p := resolvePath path
  if fs.pathExists p && !overwrite then
    (Res.error ("File exists and overwrite=false: " ++ p), fs)
  else
    match fs.mkdirAll (parentPath p) with
    | (some e, fs1) => (Res.error e, fs1)
    | (none, fs1) =>
      if fs1.isDir p then
        (Res.error ("Is a directory: " ++ p), fs1)
      else
        let b := encodeUtf8 content
        (Res.success ⟨p, b.length⟩, fs1.setFile p b)

/-- Embeds fs_mkdir of src/agents/tools/fs.py: records whether the path
existed beforehand, then creates the directory chain recursively and
idempotently, reporting a chain conflict as a tagged error. -/
def fs_mkdir (fs : FS) (path : String) : Res MkdirOk × FS :=
  let p := resolvePath path
  let existed := fs.pathExists p
  match fs.mkdirAll p with
  | (some e, fs1) => (Res.error e, fs1)
  | (none, fs1) => (Res.success ⟨p, !existed⟩, fs1)

/-- Chains whose elements are already conflict-free directories are
recreated without any state change. -/
theorem mkdirAllGo_idem :
    ∀ (qs : List String) (fs : FS),
      (∀ q ∈ qs, fs.isFile q = false ∧ fs.isDir q = true) →
      mkdirAllGo fs qs = (none, fs) := by
  intro qs
  induction qs with
  | nil => intro fs _; rfl
  | cons q rest ih =>
    intro fs h
    obtain ⟨hf, hd⟩ := h q (List.mem_cons_self q rest)
    have haddeq : fs.addDir q = fs := by
      unfold FS.addDir
      rw [if_pos]
      unfold FS.isDir at hd
      exact decide_eq_true_eq.mp hd
    simp only [mkdirAllGo]
    rw [if_neg (by rw [hf]; exact Bool.false_ne_true), haddeq]
    exact ih fs (fun r hr => h r (List.mem_cons_of_mem _ hr))

/-- C3: fs_read_text returns the not-found error when the path has no
regular file behind it; on a regular file it returns success with the
resolved path and the decoded UTF-8 content when the byte length is at
most max_bytes, returns the too-large error when the byte length exceeds
max_bytes, and reports a UTF-8 decoding failure as a tagged error rather
than raising. -/
theorem fs_read_text_spec (fs : FS) (p : String) (max_bytes : Nat) :
    (fs.lookupFile p = none →
      fs_read_text fs p max_bytes = Res.error ("File not found: " ++ p)) ∧
    (∀ data, fs.lookupFile p = some data →
      (∀ cs, decodeUtf8 data = some cs →
        (data.length ≤ max_bytes →
          fs_read_text fs p max_bytes = Res.success ⟨p, cs⟩) ∧
        (data.length > max_bytes →
          fs_read_text fs p max_bytes =
            Res.error ("File too large: " ++ toString data.length ++ " > " ++
              toString max_bytes))) ∧
      (decodeUtf8 data = none → data.length ≤ max_bytes →
        fs_read_text fs p max_bytes =
          Res.error ("utf-8 codec cannot decode file: " ++ p))) := by
  refine ⟨?_, ?_⟩
  · intro h
    simp only [fs_read_text, resolvePath]
    rw [h]
  · intro data hdata
    refine ⟨?_, ?_⟩
    · intro cs hcs
      refine ⟨?_, ?_⟩
      · intro hlen
        simp only [fs_read_text, resolvePath]
        rw [hdata]
        dsimp only
        rw [if_neg (by omega), hcs]
      · intro hlen
        simp only [fs_read_text, resolvePath]
        rw [hdata]
        dsimp only
        rw [if_pos hlen]
    · intro hcs hlen
      simp only [fs_read_text, resolvePath]
      rw [hdata]
      dsimp only
      rw [if_neg (by omega), hcs]

/-- C3 witness: a two-byte ASCII file is read back under limit two, is too
large under limit one, and a missing path reports not-found. -/
theorem fs_read_text_spec_witness :
    fs_read_text ⟨[("a.txt", [104, 105])], []⟩ "a.txt" 2 =
      Res.success ⟨"a.txt", ['h', 'i']⟩ ∧
    fs_read_text ⟨[("a.txt", [104, 105])], []⟩ "a.txt" 1 =
      Res.error ("File too large: " ++ toString 2 ++ " > " ++ toString 1) ∧
    fs_read_text ⟨[("a.txt", [104, 105])], []⟩ "b.txt" 2 =
      Res.error ("File not found: " ++ "b.txt") := by
  refine ⟨?_, ?_, ?_⟩
  · exact (((fs_read_text_spec ⟨[("a.txt", [104, 105])], []⟩ "a.txt" 2).2
      [104, 105] (by decide)).1 ['h', 'i'] (by decide)).1 (by decide)
  · exact (((fs_read_text_spec ⟨[("a.txt", [104, 105])], []⟩ "a.txt" 1).2
      [104, 105] (by decide)).1 ['h', 'i'] (by decide)).2 (by decide)
  · exact (fs_read_text_spec ⟨[("a.txt", [104, 105])], []⟩ "b.txt" 2).1
      (by decide)

/-- C5: counterexample — on a path that exists as a directory and not as a
regular file, with overwrite false, fs_write_text returns the
already-exists error, whereas the claim, whose first branch only covers an
existing target file, would demand success for this input. -/
theorem fs_write_text_dir_target_counterexample :
    (fs_write_text ⟨[], ["d"]⟩ "d" ['x'] false).1 =
      Res.error ("File exists and overwrite=false: " ++ "d") ∧
    FS.isFile ⟨[], ["d"]⟩ "d" = false := by decide

/-- C5 (amended): if the target path exists, as a file or as a directory,
and overwrite is false, fs_write_text returns the already-exists error and
the filesystem, in particular the content of every existing file, is
unchanged; otherwise, provided the target is not an existing directory,
its parent chain carries no regular-file conflict and the target is not an
element of that chain, the parent directories are created recursively, the
UTF-8 encoding of the content is stored at the target, and the call
returns success with the resolved path and the UTF-8 byte count. -/
theorem fs_write_text_spec (fs : FS) (p : String) (content : List Char)
    (overwrite : Bool) :
    (fs.pathExists p = true → overwrite = false →
      fs_write_text fs p content overwrite =
        (Res.error ("File exists and overwrite=false: " ++ p), fs)) ∧
    ((fs.pathExists p = true ∧ overwrite = false → False) →
      fs.isDir p = false →
      noFileConflict fs (parentPath p) →
      p ∉ pathChain (parentPath p) →
      ∃ fs2,
        fs_write_text fs p content overwrite =
          (Res.success ⟨p, (encodeUtf8 content).length⟩, fs2) ∧
        fs2.lookupFile p = some (encodeUtf8 content) ∧
        (∀ q ∈ pathChain (parentPath p), fs2.isDir q = true) ∧
        (∀ q, q ≠ p → fs2.lookupFile q = fs.lookupFile q)) := by
  constructor
  · intro hex hov
    simp only [fs_write_text, resolvePath]
    rw [hex, hov]
    rfl
  · intro hno hdir hfree hnotin
    have hcond : (fs.pathExists p && !overwrite) = false := by
      cases hov : overwrite
      · cases hex : fs.pathExists p
        · rfl
        · exact absurd ⟨hex, rfl⟩ (hov ▸ hno)
      · simp
    obtain ⟨fs1, hgo, hfiles, hdirs, hmono⟩ :=
      mkdirAllGo_success (pathChain (parentPath p)) fs hfree
    have hd1 : fs1.isDir p = false := by
      cases hd : fs1.isDir p
      · rfl
      · rcases mkdirAllGo_isDir_of _ fs fs1 hgo p hd with h' | h'
        · rw [hdir] at h'; cases h'
        · exact absurd h' hnotin
    refine ⟨fs1.setFile p (encodeUtf8 content), ?_, ?_, ?_, ?_⟩
    · simp only [fs_write_text, resolvePath]
      rw [if_neg (fun hcontra => Bool.false_ne_true (hcond.symm.trans hcontra))]
      unfold FS.mkdirAll
      rw [hgo]
      dsimp only
      rw [if_neg (by rw [hd1]; exact Bool.false_ne_true)]
    · exact setFile_lookup_self fs1 p (encodeUtf8 content)
    · intro q hq
      rw [setFile_isDir]
      exact hdirs q hq
    · intro q hqp
      rw [setFile_lookup_other fs1 (encodeUtf8 content) hqp]
      unfold FS.lookupFile
      rw [hfiles]

/-- C5 witness: writing two ASCII characters at a fresh nested path
succeeds with byte count two. -/
theorem fs_write_text_spec_witness :
    (fs_write_text ⟨[], []⟩ "a/b.txt" ['h', 'i'] false).1 =
      Res.success ⟨"a/b.txt", 2⟩ := by
  obtain ⟨fs2, heq, -, -, -⟩ :=
    (fs_write_text_spec ⟨[], []⟩ "a/b.txt" ['h', 'i'] false).2
      (by decide) (by decide) (by decide) (by decide)
  rw [heq]
  rfl

/-- C8: counterexample — on a path that exists as a regular file, fs_mkdir
returns a tagged error rather than the success with created false that the
claim demands for every existing path. -/
theorem fs_mkdir_file_target_counterexample :
    (fs_mkdir ⟨[("f", [])], []⟩ "f").1 =
      Res.error ("File exists: " ++ "f") := by decide

/-- C8 (amended): on every path whose creation chain is free of
regular-file conflicts, fs_mkdir is recursive and idempotent: it returns
success with created true exactly when the path did not exist before, the
directory exists after the call, and a second call on the same path
returns success with created false and leaves the state unchanged; a path
that exists as a regular file instead yields a tagged error. -/
theorem fs_mkdir_spec (fs : FS) (p : String)
    (hfree : noFileConflict fs p) :
    ∃ fs1,
      fs_mkdir fs p = (Res.success ⟨p, !fs.pathExists p⟩, fs1) ∧
      fs1.pathExists p = true ∧
      fs_mkdir fs1 p = (Res.success ⟨p, false⟩, fs1) := by
  obtain ⟨fs1, hgo, hfiles, hdirs, hmono⟩ :=
    mkdirAllGo_success (pathChain p) fs hfree
  have hmem : p ∈ pathChain p := by
    unfold pathChain
    exact List.mem_append_right _ (List.mem_singleton.mpr rfl)
  have hd1 : fs1.isDir p = true := hdirs p hmem
  have hex1 : fs1.pathExists p = true := by
    unfold FS.pathExists
    rw [hd1, Bool.or_true]
  refine ⟨fs1, ?_, hex1, ?_⟩
  · simp only [fs_mkdir, resolvePath]
    unfold FS.mkdirAll
    rw [hgo]
  · have hidem : mkdirAllGo fs1 (pathChain p) = (none, fs1) := by
      refine mkdirAllGo_idem (pathChain p) fs1 (fun q hq => ⟨?_, hdirs q hq⟩)
      unfold FS.isFile FS.lookupFile
      rw [hfiles]
      exact hfree q hq
    simp only [fs_mkdir, resolvePath]
    unfold FS.mkdirAll
    rw [hidem, hex1]
    rfl

/-- C8 witness: creating a nested fresh directory reports created true,
instantiating the amended statement at a concrete path. -/
theorem fs_mkdir_spec_witness :
    (fs_mkdir ⟨[], []⟩ "x/y").1 = Res.success ⟨"x/y", true⟩ := by
  obtain ⟨fs1, heq, -, -⟩ := fs_mkdir_spec ⟨[], []⟩ "x/y" (by decide)
  rw [heq]
  rfl

/-- C10: write-then-read round trip — whenever fs_write_text on a fresh
path returns success, reading the path back with a byte budget at least
the encoded length returns success carrying exactly the written text. -/
theorem write_then_read_roundtrip (fs : FS) (p : String)
    (content : List Char) (max_bytes : Nat) (r : WriteOk) (fs1 : FS)
    (hw : fs_write_text fs p content false = (Res.success r, fs1))
    (hlen : (encodeUtf8 content).length ≤ max_bytes) :
    fs_read_text fs1 p max_bytes = Res.success ⟨p, content⟩ := by
  simp only [fs_write_text, resolvePath] at hw
  split at hw
  · simp at hw
  · split at hw
    · simp at hw
    · split at hw
      · simp at hw
      · injection hw with hw1 hw2
        subst hw2
        simp only [fs_read_text, resolvePath]
        rw [setFile_lookup_self]
        dsimp only
        rw [if_neg (by omega), decodeUtf8_encodeUtf8]

/-- C10 witness: a concrete write of two ASCII characters at a nested
fresh path reads back to the same text. -/
theorem write_then_read_roundtrip_witness :
    fs_read_text ⟨[("a/b.txt", [104, 105])], ["a"]⟩ "a/b.txt" 2 =
      Res.success ⟨"a/b.txt", ['h', 'i']⟩ :=
  write_then_read_roundtrip ⟨[], []⟩ "a/b.txt" ['h', 'i'] 2 ⟨"a/b.txt", 2⟩
    ⟨[("a/b.txt", [104, 105])], ["a"]⟩ (by decide) (by decide)

/-- Reduce a number to a 32-bit word, as every SHA-256 step does. -/
def w32 (n : Nat) : Nat := n % 4294967296

/-- Rotate a 32-bit word right by n bits. -/
def rotr32 (n x : Nat) : Nat := x / 2 ^ n + x % 2 ^ n * 2 ^ (32 - n)

/-- SHA-256 big sigma 0. -/
def shaBigSigma0 (x : Nat) : Nat := rotr32 2 x ^^^ rotr32 13 x ^^^ rotr32 22 x

/-- SHA-256 big sigma 1. -/
def shaBigSigma1 (x : Nat) : Nat := rotr32 6 x ^^^ rotr32 11 x ^^^ rotr32 25 x

/-- SHA-256 small sigma 0: rotations by 7 and 18 and shift by 3. -/
def shaSmallSigma0 (x : Nat) : Nat := rotr32 7 x ^^^ rotr32 18 x ^^^ x / 8

/-- SHA-256 small sigma 1: rotations by 17 and 19 and shift by 10. -/
def shaSmallSigma1 (x : Nat) : Nat := rotr32 17 x ^^^ rotr32 19 x ^^^ x / 1024

/-- The 64 SHA-256 round constants. -/
def shaK : List Nat :=
  [1116352408, 1899447441, 3049323471,
   3921009573, 961987163, 1508970993,
   2453635748, 2870763221, 3624381080,
   310598401, 607225278, 1426881987,
   1925078388, 2162078206, 2614888103,
   3248222580, 3835390401, 4022224774,
   264347078, 604807628, 770255983,
   1249150122, 1555081692, 1996064986,
   2554220882, 2821834349, 2952996808,
   3210313671, 3336571891, 3584528711,
   113926993, 338241895, 666307205,
   773529912, 1294757372, 1396182291,
   1695183700, 1986661051, 2177026350,
   2456956037, 2730485921, 2820302411,
   3259730800, 3345764771, 3516065817,
   3600352804, 4094571909, 275423344,
   430227734, 506948616, 659060556,
   883997877, 958139571, 1322822218,
   1537002063, 1747873779, 1955562222,
   2024104815, 2227730452, 2361852424,
   2428436474, 2756734187, 3204031479,
   3329325298]

/-- The eight working words of the SHA-256 state. -/
structure Hash8 where
  a : Nat
  b : Nat
  c : Nat
  d : Nat
  e : Nat
  f : Nat
  g : Nat
  h : Nat
deriving DecidableEq

/-- SHA-256 initial hash value. -/
def shaH0 : Hash8 :=
  ⟨1779033703, 3144134277, 1013904242,
   2773480762, 1359893119, 2600822924,
   528734635, 1541459225⟩

/-- One SHA-256 compression round for a constant and schedule word pair. -/
def shaCompress (kw : Nat × Nat) (st : Hash8) : Hash8 :=
  let s1 := shaBigSigma1 st.e
  let ch := (st.e &&& st.f) ^^^ ((st.e ^^^ 4294967295) &&& st.g)
  let temp1 := w32 (st.h + s1 + ch + kw.1 + kw.2)
  let s0 := shaBigSigma0 st.a
  let maj := (st.a &&& st.b) ^^^ (st.a &&& st.c) ^^^ (st.b &&& st.c)
  let temp2 := w32 (s0 + maj)
  ⟨w32 (temp1 + temp2), st.a, st.b, st.c, w32 (st.d + temp1),
   st.e, st.f, st.g⟩

/-- One schedule extension step; the schedule is kept newest first. -/
def shaScheduleStep (w : List Nat) : List Nat :=
  w32 (shaSmallSigma1 (w.getD 1 0) + w.getD 6 0 +
    shaSmallSigma0 (w.getD 14 0) + w.getD 15 0) :: w

/-- Iterate a function a fixed number of times. -/
def iterateN {α : Type} (f : α → α) : Nat → α → α
  | 0, x => x
  | n + 1, x => iterateN f n (f x)

/-- Extend the sixteen block words to the 64-entry message schedule. -/
def shaSchedule (w16 : List Nat) : List Nat :=
  (iterateN shaScheduleStep 48 w16.reverse).reverse

/-- Big-endian 32-bit words of a byte list. -/
def bytesToWords : List Nat → List Nat
  | b0 :: b1 :: b2 :: b3 :: rest =>
    (b0 * 16777216 + b1 * 65536 + b2 * 256 + b3) :: bytesToWords rest
  | _ => []

/-- Big-endian eight-byte rendering of a 64-bit length field. -/
def be64 (n : Nat) : List Nat :=
  [n / 72057594037927936 % 256, n / 281474976710656 % 256,
   n / 1099511627776 % 256, n / 4294967296 % 256,
   n / 16777216 % 256, n / 65536 % 256, n / 256 % 256, n % 256]

/-- SHA-256 padding: a one bit, zeros to 56 modulo 64, and the bit length. -/
def shaPad (msg : List Nat) : List Nat :=
  msg ++ [128] ++ List.replicate ((119 - msg.length % 64) % 64) 0 ++
    be64 (8 * msg.length)

/-- Worker for chunksOf, with the list length as structural fuel. -/
def chunksOfGo (k : Nat) : Nat → List Nat → List (List Nat)
  | 0, _ => []
  | _ + 1, [] => []
  | fuel + 1, b :: bs => (b :: bs).take k :: chunksOfGo k fuel ((b :: bs).drop k)

/-- Split a byte list into consecutive chunks of at most k bytes, as the
streaming read loop of the source consumes a file. -/
def chunksOf (k : Nat) (bs : List Nat) : List (List Nat) :=
  chunksOfGo k bs.length bs

/-- Process one 64-byte block of the padded message. -/
def shaProcessBlock (st : Hash8) (block : List Nat) : Hash8 :=
  let w := shaSchedule (bytesToWords block)
  let t := (shaK.zip w).foldl (fun s kw => shaCompress kw s) st
  ⟨w32 (st.a + t.a), w32 (st.b + t.b), w32 (st.c + t.c), w32 (st.d + t.d),
   w32 (st.e + t.e), w32 (st.f + t.f), w32 (st.g + t.g), w32 (st.h + t.h)⟩

/-- SHA-256 of a byte list as the eight final state words. -/
def sha256Words (msg : List Nat) : Hash8 :=
  (chunksOf 64 (shaPad msg)).foldl shaProcessBlock shaH0

/-- The sixteen lowercase hexadecimal digit characters: the decimal digits
followed by the first six lowercase letters. -/
def hexDigitChars : List Char :=
  ((List.range 10).map (fun i => Char.ofNat (48 + i))) ++
    ((List.range 6).map (fun i => Char.ofNat (97 + i)))

/-- Hexadecimal digit character of a value below sixteen. -/
def hexDigitChar (n : Nat) : Char := hexDigitChars.getD n '0'

/-- Fixed-width lowercase hexadecimal rendering of a word. -/
def hexFixed : Nat → Nat → List Char
  | 0, _ => []
  | w + 1, n => hexFixed w (n / 16) ++ [hexDigitChar (n % 16)]

/-- Lowercase hexadecimal SHA-256 digest of a byte list, as the hexdigest
call of the source returns. -/
def sha256Hex (msg : List Nat) : String :=
  let hh := sha256Words msg
  String.mk (hexFixed 8 hh.a ++ hexFixed 8 hh.b ++ hexFixed 8 hh.c ++
    hexFixed 8 hh.d ++ hexFixed 8 hh.e ++ hexFixed 8 hh.f ++
    hexFixed 8 hh.g ++ hexFixed 8 hh.h)

/-- Embeds fs_sha256 of src/agents/tools/fs.py: the not-found error when
the path holds no regular file, else the lowercase hex digest of the file
bytes, consumed in chunks of one mebibyte. -/
def fs_sha256 (fs : FS) (path : String) : Res ShaOk :=
  let p := resolvePath path
  match fs.lookupFile p with
  | none => Res.error ("File not found: " ++ p)
  | some data =>
    Res.success ⟨p, sha256Hex ((chunksOf 1048576 data).flatten)⟩

/-- Fixed-width hexadecimal rendering has exactly the requested width. -/
theorem hexFixed_length : ∀ (w n : Nat), (hexFixed w n).length = w := by
  intro w
  induction w with
  | zero => intro n; rfl
  | succ k ih =>
    intro n
    simp only [hexFixed, List.length_append, List.length_cons,
      List.length_nil, ih]

/-- Every hexadecimal digit character is a lowercase hexadecimal digit. -/
theorem hexDigitChar_mem : ∀ n < 16, hexDigitChar n ∈ hexDigitChars := by
  decide

/-- Every character of a fixed-width rendering is a lowercase hexadecimal
digit. -/
theorem hexFixed_chars :
    ∀ (w n : Nat), ∀ c ∈ hexFixed w n, c ∈ hexDigitChars := by
  intro w
  induction w with
  | zero => intro n c hc; cases hc
  | succ k ih =>
    intro n c hc
    rcases List.mem_append.mp hc with h | h
    · exact ih (n / 16) c h
    · rw [List.mem_singleton.mp h]
      exact hexDigitChar_mem (n % 16) (Nat.mod_lt n (by omega))

/-- The digest string always has 64 characters. -/
theorem sha256Hex_length (msg : List Nat) : (sha256Hex msg).length = 64 := by
  unfold sha256Hex
  simp [String.length, List.length_append, hexFixed_length]

/-- Every character of the digest string is a lowercase hexadecimal
digit. -/
theorem sha256Hex_chars (msg : List Nat) :
    ∀ c ∈ (sha256Hex msg).data, c ∈ hexDigitChars := by
  intro c hc
  unfold sha256Hex at hc
  simp only [List.mem_append] at hc
  rcases hc with ((((((h | h) | h) | h) | h) | h) | h) | h <;>
    exact hexFixed_chars 8 _ c h

/-- Chunked reading reassembles to the original bytes whenever the chunk
size is positive. -/
theorem chunksOfGo_flatten {k : Nat} (hk : 0 < k) :
    ∀ (fuel : Nat) (bs : List Nat), bs.length ≤ fuel →
      (chunksOfGo k fuel bs).flatten = bs := by
  intro fuel
  induction fuel with
  | zero =>
    intro bs h
    have hbs : bs = [] := List.eq_nil_of_length_eq_zero (Nat.le_zero.mp h)
    subst hbs
    rfl
  | succ n ih =>
    intro bs h
    cases bs with
    | nil => rfl
    | cons b rest =>
      simp only [chunksOfGo, List.flatten_cons]
      rw [ih ((b :: rest).drop k)
        (by
          simp only [List.length_drop, List.length_cons]
          simp only [List.length_cons] at h
          omega)]
      exact List.take_append_drop k (b :: rest)

/-- The file bytes are recovered from the streaming chunks. -/
theorem chunksOf_flatten {k : Nat} (hk : 0 < k) (bs : List Nat) :
    (chunksOf k bs).flatten = bs :=
  chunksOfGo_flatten hk bs.length bs (Nat.le_refl _)

/-- C7: fs_sha256 returns the not-found error when the path holds no
regular file; otherwise it returns success with sha256 equal to the
lowercase hexadecimal SHA-256 digest of the exact file bytes — a 64
character string over the lowercase hexadecimal alphabet — computed by
streaming the bytes in chunks of one mebibyte, which reassemble to the
exact file bytes. -/
theorem fs_sha256_spec (fs : FS) (p : String) :
    (fs.lookupFile p = none →
      fs_sha256 fs p = Res.error ("File not found: " ++ p)) ∧
    (∀ data, fs.lookupFile p = some data →
      (chunksOf 1048576 data).flatten = data ∧
      fs_sha256 fs p = Res.success ⟨p, sha256Hex data⟩ ∧
      (sha256Hex data).length = 64 ∧
      ∀ c ∈ (sha256Hex data).data, c ∈ hexDigitChars) := by
  constructor
  · intro h
    simp only [fs_sha256, resolvePath]
    rw [h]
  · intro data hdata
    have hflat : (chunksOf 1048576 data).flatten = data :=
      chunksOf_flatten (by omega) data
    refine ⟨hflat, ?_, sha256Hex_length data, sha256Hex_chars data⟩
    simp only [fs_sha256, resolvePath]
    rw [hdata]
    dsimp only
    rw [hflat]

/-- C7 witness: the digest of the three-byte file holding abc, through the
tool, is the well-known SHA-256 test vector, 64 lowercase hex digits. -/
theorem fs_sha256_spec_witness :
    fs_sha256 ⟨[("f", [97, 98, 99])], []⟩ "f" =
      Res.success ⟨"f", sha256Hex [97, 98, 99]⟩ ∧
    sha256Hex [97, 98, 99] =
      "ba7816bf8f01cfea414140de5dae2223b00361a396177a9cb410ff61f20015ad" := by
  constructor
  · exact ((fs_sha256_spec ⟨[("f", [97, 98, 99])], []⟩ "f").2
      [97, 98, 99] (by decide)).2.1
  · decide

/-- True when a CSV field needs quoting under the default minimal-quoting
dialect of the csv module: it holds the delimiter, the quote character or
a character of the CRLF line terminator. -/
def csvNeedsQuote (s : List Char) : Bool :=
  s.any (fun c => c == ',' || c == '"' || c == '\r' || c == '\n')

/-- Double every quote character, as the csv writer escapes quotes. -/
def csvEscapeQuotes : List Char → List Char
  | [] => []
  | c :: rest =>
    if c = '"' then '"' :: '"' :: csvEscapeQuotes rest
    else c :: csvEscapeQuotes rest

/-- Render one CSV field under minimal quoting. -/
def csvField (s : List Char) : List Char :=
  if csvNeedsQuote s then '"' :: (csvEscapeQuotes s ++ ['"']) else s

/-- Join rendered fields with comma separators. -/
def csvJoin : List (List Char) → List Char
  | [] => []
  | [f] => f
  | f :: rest => f ++ ',' :: csvJoin rest

/-- One CSV record line: comma-joined minimally quoted fields followed by
the CRLF terminator the csv writer appends. -/
def csvRecordLine (fields : List String) : List Char :=
  csvJoin (fields.map (fun f => csvField f.data)) ++ ['\r', '\n']

/-- UTF-8 bytes of one CSV record, as written to the file. -/
def csvRecordBytes (fields : List String) : List Nat :=
  encodeUtf8 (csvRecordLine fields)

/-- Row projection of the dictionary writer: one value for each header
column in header order, the empty string when the row has no such key,
keys outside the header being dropped. -/
def csvOutRow (header : List String) (row : List (String × String)) :
    List String :=
  header.map (fun k => ((row.lookup k).getD ""))

/-- Embeds csv_append_row of src/agents/tools/fs.py: remembers whether the
file existed, creates the parent chain, then either writes a fresh file
holding the header record and the row record or appends the row record to
the existing content; chain conflicts and directory targets become tagged
errors. -/
def csv_append_row (fs : FS) (csv_path : String) (header : List String)
    (row : List (String × String)) : Res CsvOk × FS :=
  let p := resolvePath csv_path
  let created := !fs.pathExists p
  match fs.mkdirAll (parentPath p) with
  | (some e, fs1) => (Res.error e, fs1)
  | (none, fs1) =>
    if fs1.isDir p then (Res.error ("Is a directory: " ++ p), fs1)
    else
      let old := (fs1.lookupFile p).getD []
      let content :=
        if created then
          csvRecordBytes header ++ csvRecordBytes (csvOutRow header row)
        else old ++ csvRecordBytes (csvOutRow header row)
      (Res.success ⟨p, created, true⟩, fs1.setFile p content)

/-- C2: on a fresh path with a conflict-free parent chain, csv_append_row
creates the file holding exactly the header record followed by the single
row record, the row projected to the header columns with absent keys as
empty strings and extra keys dropped; a second call appends exactly one
more row record and no second header. -/
theorem csv_append_row_spec (fs : FS) (p : String) (header : List String)
    (row row2 : List (String × String))
    (hnew : fs.pathExists p = false)
    (hfree : noFileConflict fs (parentPath p))
    (hnotin : p ∉ pathChain (parentPath p)) :
    ∃ fs1 fs2,
      csv_append_row fs p header row = (Res.success ⟨p, true, true⟩, fs1) ∧
      fs1.lookupFile p =
        some (csvRecordBytes header ++
          csvRecordBytes (csvOutRow header row)) ∧
      csv_append_row fs1 p header row2 =
        (Res.success ⟨p, false, true⟩, fs2) ∧
      fs2.lookupFile p =
        some ((csvRecordBytes header ++
          csvRecordBytes (csvOutRow header row)) ++
          csvRecordBytes (csvOutRow header row2)) := by
  have hdir0 : fs.isDir p = false := by
    unfold FS.pathExists at hnew
    exact (Bool.or_eq_false_iff.mp hnew).2
  obtain ⟨fs1', hgo, hfiles, hdirs, hmono⟩ :=
    mkdirAllGo_success (pathChain (parentPath p)) fs hfree
  have hd1 : fs1'.isDir p = false := by
    cases hd : fs1'.isDir p
    · rfl
    · rcases mkdirAllGo_isDir_of _ fs fs1' hgo p hd with h' | h'
      · rw [hdir0] at h'; cases h'
      · exact absurd h' hnotin
  set recA := csvRecordBytes header with hrecA
  set recB := csvRecordBytes (csvOutRow header row) with hrecB
  set recC := csvRecordBytes (csvOutRow header row2) with hrecC
  set fs1 := fs1'.setFile p (recA ++ recB) with hfs1
  have hlk1 : fs1.lookupFile p = some (recA ++ recB) :=
    setFile_lookup_self fs1' p (recA ++ recB)
  have hcall1 :
      csv_append_row fs p header row = (Res.success ⟨p, true, true⟩, fs1) := by
    simp only [csv_append_row, resolvePath]
    rw [hnew]
    unfold FS.mkdirAll
    rw [hgo]
    dsimp only
    rw [if_neg (by rw [hd1]; exact Bool.false_ne_true)]
    rfl
  have hisf1 : fs1.isFile p = true := by
    unfold FS.isFile
    rw [hlk1]
    rfl
  have hex1 : fs1.pathExists p = true := by
    unfold FS.pathExists
    rw [hisf1]
    rfl
  have hfree1 : ∀ q ∈ pathChain (parentPath p), fs1.isFile q = false := by
    intro q hq
    have hqp : q ≠ p := fun h => hnotin (h ▸ hq)
    unfold FS.isFile
    rw [hfs1, setFile_lookup_other fs1' (recA ++ recB) hqp]
    unfold FS.lookupFile
    rw [hfiles]
    exact hfree q hq
  obtain ⟨fs2', hgo2, hfiles2, hdirs2, hmono2⟩ :=
    mkdirAllGo_success (pathChain (parentPath p)) fs1 hfree1
  have hd2 : fs2'.isDir p = false := by
    cases hd : fs2'.isDir p
    · rfl
    · rcases mkdirAllGo_isDir_of _ fs1 fs2' hgo2 p hd with h' | h'
      · rw [hfs1, setFile_isDir, hd1] at h'; cases h'
      · exact absurd h' hnotin
  have hold2 : fs2'.lookupFile p = some (recA ++ recB) := by
    unfold FS.lookupFile
    rw [hfiles2]
    exact hlk1
  set fs2 := fs2'.setFile p ((recA ++ recB) ++ recC) with hfs2
  have hcall2 :
      csv_append_row fs1 p header row2 =
        (Res.success ⟨p, false, true⟩, fs2) := by
    simp only [csv_append_row, resolvePath]
    rw [hex1]
    unfold FS.mkdirAll
    rw [hgo2]
    dsimp only
    rw [if_neg (by rw [hd2]; exact Bool.false_ne_true), if_neg (by simp),
      hold2]
    rfl
  exact ⟨fs1, fs2, hcall1, hlk1, hcall2,
    setFile_lookup_self fs2' p ((recA ++ recB) ++ recC)⟩

/-- Line-break characters recognised by str.splitlines. -/
def isLineBreakChar (c : Char) : Bool :=
  [10, 13, 11, 12, 28, 29, 30, 133, 8232, 8233].contains c.toNat

/-- Worker for splitlines with keepends: the accumulator holds the current
line reversed. -/
def splitLinesKeepGo : List Char → List Char → List String
  | [], [] => []
  | [], acc => [String.mk acc.reverse]
  | '\r' :: '\n' :: rest, acc =>
    String.mk (acc.reverse ++ ['\r', '\n']) :: splitLinesKeepGo rest []
  | c :: rest, acc =>
    if isLineBreakChar c then
      String.mk (acc.reverse ++ [c]) :: splitLinesKeepGo rest []
    else splitLinesKeepGo rest (c :: acc)

/-- Embeds str.splitlines with keepends True, as the source splits both
diff inputs. -/
def splitLinesKeep (s : String) : List String :=
  splitLinesKeepGo s.data []

/-- Append an index to the entry of a key, creating the entry when absent:
embeds the setdefault-append building b2j. -/
def b2jInsert (key : String) (i : Nat) :
    List (String × List Nat) → List (String × List Nat)
  | [] => [(key, [i])]
  | (k, v) :: rest =>
    if k = key then (k, v ++ [i]) :: rest
    else (k, v) :: b2jInsert key i rest

/-- Worker building b2j from the second sequence with running index. -/
def buildB2JGo : Nat → List String → List (String × List Nat) →
    List (String × List Nat)
  | _, [], m => m
  | i, s :: rest, m => buildB2JGo (i + 1) rest (b2jInsert s i m)

/-- Ascending positions of every line of b, with popular lines deleted when
the autojunk heuristic applies: b of at least 200 lines, line occurring
more than one percent of the length plus one times. -/
def buildB2J (b : List String) : List (String × List Nat) :=
  let m := buildB2JGo 0 b []
  if 200 ≤ b.length then
    m.filter (fun kv => !(decide (b.length / 100 + 1 < kv.2.length)))
  else m

/-- Inner loop of find_longest_match over the match positions of one line
of a, threading the dynamic-programming table and the best block; the
position list is ascending, so the loop breaks at the first position at or
beyond bhi.  Position zero has no predecessor entry, matching the absent
negative dictionary key. -/
def flmInner (i blo bhi : Nat) (j2len : List (Nat × Nat)) :
    List Nat → List (Nat × Nat) → Nat × Nat × Nat →
    List (Nat × Nat) × (Nat × Nat × Nat)
  | [], newj2len, best => (newj2len, best)
  | j :: js, newj2len, best =>
    if j < blo then flmInner i blo bhi j2len js newj2len best
    else if bhi ≤ j then (newj2len, best)
    else
      let k := (if j = 0 then 0 else (j2len.lookup (j - 1)).getD 0) + 1
      let best1 :=
        if best.2.2 < k then (i + 1 - k, j + 1 - k, k) else best
      flmInner i blo bhi j2len js ((j, k) :: newj2len) best1

/-- Outer loop of find_longest_match over the a interval, the counter
giving the remaining rows. -/
def flmOuter (a : List String) (b2j : List (String × List Nat))
    (blo bhi : Nat) : Nat → Nat → List (Nat × Nat) → Nat × Nat × Nat →
    Nat × Nat × Nat
  | _, 0, _, best => best
  | i, cnt + 1, j2len, best =>
    let js := (b2j.lookup (a.getD i "")).getD []
    let (newj2len, best1) := flmInner i blo bhi j2len js [] best
    flmOuter a b2j blo bhi (i + 1) cnt newj2len best1

/-- Extend the best block leftwards over equal elements; the junk set is
empty at this call site since the matcher is built with no junk predicate,
so only equality is tested.  Structural fuel bounds the walk. -/
def flmExtendLeft (a b : List String) (alo blo : Nat) :
    Nat → Nat × Nat × Nat → Nat × Nat × Nat
  | 0, best => best
  | fuel + 1, (bi, bj, bs) =>
    if alo < bi ∧ blo < bj ∧ a.getD (bi - 1) "" = b.getD (bj - 1) "" then
      flmExtendLeft a b alo blo fuel (bi - 1, bj - 1, bs + 1)
    else (bi, bj, bs)

/-- Extend the best block rightwards over equal elements, fuel bounded. -/
def flmExtendRight (a b : List String) (ahi bhi : Nat) :
    Nat → Nat × Nat × Nat → Nat × Nat × Nat
  | 0, best => best
  | fuel + 1, (bi, bj, bs) =>
    if bi + bs < ahi ∧ bj + bs < bhi ∧
       a.getD (bi + bs) "" = b.getD (bj + bs) "" then
      flmExtendRight a b ahi bhi fuel (bi, bj, bs + 1)
    else (bi, bj, bs)

/-- Embeds SequenceMatcher.find_longest_match on one interval pair. -/
def findLongestMatch (a b : List String) (b2j : List (String × List Nat))
    (alo ahi blo bhi : Nat) : Nat × Nat × Nat :=
  let best0 := flmOuter a b2j blo bhi alo (ahi - alo) [] (alo, blo, 0)
  let best1 := flmExtendLeft a b alo blo best0.1 best0
  flmExtendRight a b ahi bhi (ahi + bhi) best1

/-- Queue-driven collection of matching blocks, processed depth first as
the Python pop from the end of the queue proceeds; the fuel bounds the
number of processed intervals. -/
def gmbLoop (a b : List String) (b2j : List (String × List Nat)) :
    Nat → List (Nat × Nat × Nat × Nat) → List (Nat × Nat × Nat) →
    List (Nat × Nat × Nat)
  | 0, _, acc => acc
  | _ + 1, [], acc => acc
  | fuel + 1, (alo, ahi, blo, bhi) :: stack, acc =>
    let x := findLongestMatch a b b2j alo ahi blo bhi
    if x.2.2 = 0 then gmbLoop a b b2j fuel stack acc
    else
      let stack1 :=
        if alo < x.1 ∧ blo < x.2.1 then (alo, x.1, blo, x.2.1) :: stack
        else stack
      let stack2 :=
        if x.1 + x.2.2 < ahi ∧ x.2.1 + x.2.2 < bhi then
          (x.1 + x.2.2, ahi, x.2.1 + x.2.2, bhi) :: stack1
        else stack1
      gmbLoop a b b2j fuel stack2 (x :: acc)

/-- Lexicographic order on block triples, as the Python sort compares. -/
def tripleLe (x y : Nat × Nat × Nat) : Bool :=
  decide (x.1 < y.1) || (x.1 == y.1 &&
    (decide (x.2.1 < y.2.1) || (x.2.1 == y.2.1 && decide (x.2.2 ≤ y.2.2))))

/-- Insert a triple into a sorted list. -/
def insertTriple (x : Nat × Nat × Nat) :
    List (Nat × Nat × Nat) → List (Nat × Nat × Nat)
  | [] => [x]
  | y :: rest =>
    if tripleLe x y then x :: y :: rest else y :: insertTriple x rest

/-- Insertion sort of block triples. -/
def sortTriples : List (Nat × Nat × Nat) → List (Nat × Nat × Nat)
  | [] => []
  | x :: rest => insertTriple x (sortTriples rest)

/-- Merge adjacent matching blocks, as get_matching_blocks does before
appending the terminating sentinel. -/
def mergeBlocksGo (i1 j1 k1 : Nat) :
    List (Nat × Nat × Nat) → List (Nat × Nat × Nat)
  | [] => if k1 ≠ 0 then [(i1, j1, k1)] else []
  | (i2, j2, k2) :: rest =>
    if i1 + k1 = i2 ∧ j1 + k1 = j2 then mergeBlocksGo i1 j1 (k1 + k2) rest
    else
      if k1 ≠ 0 then (i1, j1, k1) :: mergeBlocksGo i2 j2 k2 rest
      else mergeBlocksGo i2 j2 k2 rest

/-- Embeds SequenceMatcher.get_matching_blocks: maximal blocks found
recursively, sorted, merged when adjacent, with the zero sentinel. -/
def getMatchingBlocks (a b : List String) : List (Nat × Nat × Nat) :=
  let blocks := gmbLoop a b (buildB2J b) (2 * (a.length + b.length) + 4)
    [(0, a.length, 0, b.length)] []
  mergeBlocksGo 0 0 0 (sortTriples blocks) ++ [(a.length, b.length, 0)]

/-- One edit opcode: tag and the two half-open index ranges. -/
abbrev Opcode := String × Nat × Nat × Nat × Nat

/-- Walk of the matching blocks emitting replace, delete, insert and equal
opcodes, exactly as get_opcodes does. -/
def getOpcodesGo : Nat → Nat → List (Nat × Nat × Nat) → List Opcode
  | _, _, [] => []
  | i, j, (ai, bj, size) :: rest =>
    (if i < ai ∧ j < bj then [("replace", i, ai, j, bj)]
     else if i < ai then [("delete", i, ai, j, bj)]
     else if j < bj then [("insert", i, ai, j, bj)]
     else []) ++
    (if size ≠ 0 then [("equal", ai, ai + size, bj, bj + size)] else []) ++
    getOpcodesGo (ai + size) (bj + size) rest

/-- Embeds SequenceMatcher.get_opcodes. -/
def getOpcodes (a b : List String) : List Opcode :=
  getOpcodesGo 0 0 (getMatchingBlocks a b)

/-- Widen a leading equal opcode to at most n context lines, as
get_grouped_opcodes fixes the first opcode. -/
def widenFirst (n : Nat) : List Opcode → List Opcode
  | (tag, i1, i2, j1, j2) :: rest =>
    if tag = "equal" then
      (tag, max i1 (i2 - n), i2, max j1 (j2 - n), j2) :: rest
    else (tag, i1, i2, j1, j2) :: rest
  | [] => []

/-- Worker of trimLast on the reversed opcode list. -/
def trimLastRev (n : Nat) : List Opcode → List Opcode
  | (tag, i1, i2, j1, j2) :: rest =>
    if tag = "equal" then
      (tag, i1, min i2 (i1 + n), j1, min j2 (j1 + n)) :: rest
    else (tag, i1, i2, j1, j2) :: rest
  | [] => []

/-- Trim a trailing equal opcode to at most n context lines. -/
def trimLast (n : Nat) (codes : List Opcode) : List Opcode :=
  (trimLastRev n codes.reverse).reverse

/-- Split the opcodes into hunk groups, cutting equal runs longer than two
context widths, as the loop of get_grouped_opcodes yields groups. -/
def groupOpcodesGo (nn n : Nat) :
    List Opcode → List Opcode → List (List Opcode)
  | [], group =>
    if group = [] then []
    else if group.length = 1 ∧ (group.headD ("", 0, 0, 0, 0)).1 = "equal" then
      []
    else [group]
  | (tag, i1, i2, j1, j2) :: rest, group =>
    if tag = "equal" ∧ nn < i2 - i1 then
      (group ++ [(tag, i1, min i2 (i1 + n), j1, min j2 (j1 + n))]) ::
        groupOpcodesGo nn n rest
          [(tag, max i1 (i2 - n), i2, max j1 (j2 - n), j2)]
    else groupOpcodesGo nn n rest (group ++ [(tag, i1, i2, j1, j2)])

/-- Embeds SequenceMatcher.get_grouped_opcodes with context n. -/
def getGroupedOpcodes (a b : List String) (n : Nat) : List (List Opcode) :=
  let codes0 := getOpcodes a b
  let codes1 := if codes0 = [] then [("equal", 0, 1, 0, 1)] else codes0
  groupOpcodesGo (n + n) n (trimLast n (widenFirst n codes1)) []

/-- Embeds the range rendering of unified hunk headers. -/
def formatRangeUnified (start stop : Nat) : String :=
  let beginning := start + 1
  let length := stop - start
  if length = 1 then toString beginning
  else
    toString (if length = 0 then beginning - 1 else beginning) ++ "," ++
      toString length

/-- The lines of one hunk: the range header line, then context, deletion
and insertion lines with their one-character markers. -/
def hunkLines (a b : List String) (group : List Opcode) : List String :=
  let first := group.headD ("", 0, 0, 0, 0)
  let last := group.getLastD ("", 0, 0, 0, 0)
  let file1 := formatRangeUnified first.2.1 last.2.2.1
  let file2 := formatRangeUnified first.2.2.2.1 last.2.2.2.2
  ("@@ -" ++ file1 ++ " +" ++ file2 ++ " @@\n") ::
    (group.map (fun opc =>
      let asl := (a.drop opc.2.1).take (opc.2.2.1 - opc.2.1)
      let bsl := (b.drop opc.2.2.2.1).take (opc.2.2.2.2 - opc.2.2.2.1)
      if opc.1 = "equal" then asl.map (fun l => " " ++ l)
      else
        (if opc.1 = "replace" ∨ opc.1 = "delete" then
          asl.map (fun l => "-" ++ l)
        else []) ++
        (if opc.1 = "replace" ∨ opc.1 = "insert" then
          bsl.map (fun l => "+" ++ l)
        else []))).flatten

/-- Hunk lines of the whole diff: every line after the two file header
lines. -/
def unifiedDiffHunks (a b : List String) (n : Nat) : List String :=
  ((getGroupedOpcodes a b n).map (hunkLines a b)).flatten

/-- All lines of difflib.unified_diff: the two file header lines when any
hunk exists, then the hunks. -/
def unifiedDiffLines (a b : List String) (fromName toName : String)
    (n : Nat) : List String :=
  if getGroupedOpcodes a b n = [] then []
  else
    ("--- " ++ fromName ++ "\n") :: ("+++ " ++ toName ++ "\n") ::
      unifiedDiffHunks a b n

/-- Worker of the prefix test over character lists. -/
def strStartsGo : List Char → List Char → Bool
  | _, [] => true
  | [], _ :: _ => false
  | c :: cs, p :: ps => c == p && strStartsGo cs ps

/-- Embeds str.startswith on strings. -/
def strStarts (s pat : String) : Bool :=
  strStartsGo s.data pat.data

/-- The count the source computes: diff lines starting with plus or minus,
excluding every line that starts with three pluses or three minuses. -/
def approxChangedCount (lines : List String) : Nat :=
  lines.countP (fun l =>
    (strStarts l "+" || strStarts l "-") &&
    !(strStarts l "+++" || strStarts l "---"))

/-- Embeds text_unified_diff of src/agents/tools/fs.py: split both texts
keeping line ends, render the unified diff and count the changed lines by
prefix; no input reaches an error. -/
def text_unified_diff (from_text to_text : String)
    (from_name : String := "base") (to_name : String := "tailored")
    (context_lines : Nat := 3) : Res DiffOk :=
  let a := splitLinesKeep from_text
  let b := splitLinesKeep to_text
  let dl := unifiedDiffLines a b from_name to_name context_lines
  Res.success ⟨String.join dl, approxChangedCount dl⟩

/-- The count the claim describes: lines starting with plus or minus among
the diff lines other than the two file header lines. -/
def claimChangedCount (a b : List String) (n : Nat) : Nat :=
  (unifiedDiffHunks a b n).countP
    (fun l => strStarts l "+" || strStarts l "-")

/-- C2 witness: creating a fresh ledger under a fresh directory succeeds
with created true, at a concrete header and row with one missing and one
extra key. -/
theorem csv_append_row_spec_witness :
    (csv_append_row ⟨[], []⟩ "d/t.csv" ["a", "b"]
      [("a", "1"), ("x", "9")]).1 =
      Res.success ⟨"d/t.csv", true, true⟩ := by
  obtain ⟨fs1, fs2, h1, -, -, -⟩ :=
    csv_append_row_spec ⟨[], []⟩ "d/t.csv" ["a", "b"]
      [("a", "1"), ("x", "9")] [("b", "2")]
      (by decide) (by decide) (by decide)
  rw [h1]

/-- C4: counterexample — an inserted content line whose own text starts
with two plus signs renders as a diff line starting with three plus signs;
the code excludes it from approx_changed_lines, reporting zero, while the
count of plus or minus prefixed lines outside the two file header lines is
one. -/
theorem text_unified_diff_plus_prefix_counterexample :
    text_unified_diff "" "++x\n" =
      Res.success
        ⟨"--- base\n+++ tailored\n@@ -0,0 +1 @@\n+++x\n", 0⟩ ∧
    claimChangedCount (splitLinesKeep "") (splitLinesKeep "++x\n") 3 = 1 := by
  constructor
  · decide
  · decide

/-- C4 (amended): text_unified_diff always returns status success, and its
approx_changed_lines equals the number of diff lines starting with plus or
minus excluding every line that starts with three pluses or three minuses,
so the two file header lines and also any content line rendering with such
a prefix; on from a b and to a c with trailing newlines it reports two
changed lines and the diff holds the lines minus b and plus c. -/
theorem text_unified_diff_spec (from_text to_text from_name to_name : String)
    (n : Nat) :
    text_unified_diff from_text to_text from_name to_name n =
      Res.success
        ⟨String.join (unifiedDiffLines (splitLinesKeep from_text)
            (splitLinesKeep to_text) from_name to_name n),
          approxChangedCount (unifiedDiffLines (splitLinesKeep from_text)
            (splitLinesKeep to_text) from_name to_name n)⟩ ∧
    text_unified_diff "a\nb\n" "a\nc\n" =
      Res.success
        ⟨"--- base\n+++ tailored\n@@ -1,2 +1,2 @@\n a\n-b\n+c\n", 2⟩ ∧
    "-b\n" ∈ unifiedDiffLines (splitLinesKeep "a\nb\n")
      (splitLinesKeep "a\nc\n") "base" "tailored" 3 ∧
    "+c\n" ∈ unifiedDiffLines (splitLinesKeep "a\nb\n")
      (splitLinesKeep "a\nc\n") "base" "tailored" 3 := by
  refine ⟨rfl, by decide, ?_, ?_⟩
  · decide
  · decide

/-- A result carries one of the two tags: success with a payload or error
with a message. -/
def Res.tagged {α : Type} (r : Res α) : Prop :=
  (∃ v, r = Res.success v) ∨ (∃ m, r = Res.error m)

/-- Any result value is tagged. -/
theorem res_tagged {α : Type} (r : Res α) : r.tagged := by
  cases r with
  | success v => exact Or.inl ⟨v, rfl⟩
  | error m => exact Or.inr ⟨m, rfl⟩

/-- C9: every Artifact Store operation is total at its interface — for all
inputs each of fs_read_text, fs_write_text, fs_mkdir, fs_sha256,
text_unified_diff and csv_append_row returns a result tagged success with
its payload or error with a message, the embedding of the try and except
wrapping under which no exception escapes to the caller. -/
theorem artifact_store_total :
    (∀ fs p mb, (fs_read_text fs p mb).tagged) ∧
    (∀ fs p c ow, ((fs_write_text fs p c ow).1).tagged) ∧
    (∀ fs p, ((fs_mkdir fs p).1).tagged) ∧
    (∀ fs p, (fs_sha256 fs p).tagged) ∧
    (∀ ft tt fn tn n, (text_unified_diff ft tt fn tn n).tagged) ∧
    (∀ fs p h r, ((csv_append_row fs p h r).1).tagged) :=
  ⟨fun _ _ _ => res_tagged _, fun _ _ _ _ => res_tagged _,
   fun _ _ => res_tagged _, fun _ _ => res_tagged _,
   fun _ _ _ _ _ => res_tagged _, fun _ _ _ _ => res_tagged _⟩
